import Mathlib

/-!
Verification of `app/static/js/main.js`: a client-side script that
validates a YouTube URL field on blur, colors a password field by length
on input, and shows transient toast notifications.

The script's regex literal `/^(https?:\/\/)?(www\.)?(youtube\.com|youtu\.?be)\/.+$/`
is embedded as a term of a small regular-expression syntax together with a
Brzozowski-derivative matcher (executable) and an inductive language
relation (for reasoning); the two are proved equivalent.
-/

namespace MainJs

/-- Syntax of the regular expressions used by the script's pattern literal:
the empty language, the empty string, a literal character (covering escaped
characters such as `\.` and `\/`), the metacharacter `.`, concatenation,
alternation `|`, and Kleene star (from which `?` and `+` are derived). -/
inductive Regex where
  | fail : Regex
  | eps : Regex
  | lit : Char → Regex
  | dotAny : Regex
  | cat : Regex → Regex → Regex
  | alt : Regex → Regex → Regex
  | star : Regex → Regex
deriving DecidableEq

/-- JavaScript `.` (without the `s` flag) matches any character except the
line terminators LF, CR, LINE SEPARATOR (U+2028) and PARAGRAPH SEPARATOR
(U+2029). -/
def isDotChar (c : Char) : Bool :=
  !(c = '\n' || c = '\r' || c = '\u2028' || c = '\u2029')

/-- Whether a regex accepts the empty string. -/
def Regex.nullable : Regex → Bool
  | .fail => false
  | .eps => true
  | .lit _ => false
  | .dotAny => false
  | .cat a b => a.nullable && b.nullable
  | .alt a b => a.nullable || b.nullable
  | .star _ => true

/-- Concatenation smart constructor (keeps derivatives small). -/
def Regex.scat (a b : Regex) : Regex :=
  match a, b with
  | .fail, _ => .fail
  | _, .fail => .fail
  | .eps, b => b
  | a, .eps => a
  | a, b => .cat a b

/-- Alternation smart constructor (keeps derivatives small). -/
def Regex.salt (a b : Regex) : Regex :=
  match a, b with
  | .fail, b => b
  | a, .fail => a
  | a, b => .alt a b

/-- Brzozowski derivative of a regex by one character. -/
def Regex.deriv (r : Regex) (c : Char) : Regex :=
  match r with
  | .fail => .fail
  | .eps => .fail
  | .lit d => if d = c then .eps else .fail
  | .dotAny => if isDotChar c then .eps else .fail
  | .cat a b =>
      if a.nullable then .salt (.scat (a.deriv c) b) (b.deriv c)
      else .scat (a.deriv c) b
  | .alt a b => .salt (a.deriv c) (b.deriv c)
  | .star a => .scat (a.deriv c) (.star a)

/-- Anchored matching (the pattern is bracketed by `^` and `$`, so
`RegExp.test` is full-string matching): derive by each character in turn
and test nullability. -/
def Regex.matchList (r : Regex) (s : List Char) : Bool :=
  (s.foldl Regex.deriv r).nullable

/-- The language of a regex, as an inductive relation. -/
inductive Regex.Matches : Regex → List Char → Prop
  | eps : Regex.Matches .eps []
  | lit (c : Char) : Regex.Matches (.lit c) [c]
  | dotAny (c : Char) : isDotChar c = true → Regex.Matches .dotAny [c]
  | cat {a b : Regex} {s t : List Char} :
      Regex.Matches a s → Regex.Matches b t → Regex.Matches (.cat a b) (s ++ t)
  | altL {a b : Regex} {s : List Char} :
      Regex.Matches a s → Regex.Matches (.alt a b) s
  | altR {a b : Regex} {s : List Char} :
      Regex.Matches b s → Regex.Matches (.alt a b) s
  | starNil (a : Regex) : Regex.Matches (.star a) []
  | starCons {a : Regex} {s t : List Char} :
      Regex.Matches a s → Regex.Matches (.star a) t →
      Regex.Matches (.star a) (s ++ t)

/-- Literal string regex: concatenation of character literals. -/
def strR : List Char → Regex
  | [] => .eps
  | c :: cs => .cat (.lit c) (strR cs)

/-- `r?` is `r | ε`. -/
def ropt (r : Regex) : Regex := .alt r .eps

/-- `.+` is `. .*`. -/
def dotPlus : Regex := .cat .dotAny (.star .dotAny)

/-- `(https?:\/\/)?`. -/
def schemeR : Regex :=
  ropt (.cat (strR ['h', 't', 't', 'p'])
             (.cat (ropt (.lit 's')) (strR [':', '/', '/'])))

/-- `(www\.)?`. -/
def wwwR : Regex := ropt (strR ['w', 'w', 'w', '.'])

/-- `(youtube\.com|youtu\.?be)` — note the dot before `be` is the escaped
literal `\.`, made optional by `?`. -/
def hostR : Regex :=
  .alt (strR ['y', 'o', 'u', 't', 'u', 'b', 'e', '.', 'c', 'o', 'm'])
       (.cat (strR ['y', 'o', 'u', 't', 'u'])
             (.cat (ropt (.lit '.')) (strR ['b', 'e'])))

/-- `/^(https?:\/\/)?(www\.)?(youtube\.com|youtu\.?be)\/.+$/`. -/
def youtubePattern : Regex :=
  .cat schemeR (.cat wwwR (.cat hostR (.cat (.lit '/') dotPlus)))

/-- `youtubePattern.test(s)`. -/
def youtubeTest (s : String) : Bool :=
  youtubePattern.matchList s.data

/-! ## The form-field handlers -/

/-- The literal Russian message passed to `showNotification` by the URL
blur handler. -/
def youtubeUrlMessage : String :=
  "Пожалуйста, введите корректную ссылку на YouTube видео"

/-- A call made to `showNotification`: the `message` and `type` arguments. -/
structure NotifCall where
  message : String
  type : String
deriving DecidableEq

/-- The body of the `blur` listener on the `video_url` element, as a
function of the field's current value: it returns the border color the
handler assigns to `this.style.borderColor` together with the list of
`showNotification` calls it makes.  JavaScript's
`if (this.value && !youtubePattern.test(this.value))` tests that the value
is a non-empty string and fails the pattern. -/
def urlBlurHandler (value : String) : String × List NotifCall :=
  if value ≠ "" ∧ youtubeTest value = false then
    ("#e74c3c", [⟨youtubeUrlMessage, "error"⟩])
  else
    ("#27ae60", [])

/-- The body of the `input` listener on the `password` element: the border
color assigned from `strength = this.value.length`, plus the (empty) list
of `showNotification` calls it makes. -/
def passwordInputHandler (value : String) : String × List NotifCall :=
  let strength := value.length
  (if strength < 6 then "#e74c3c"
   else if strength < 10 then "#f39c12"
   else "#27ae60",
   [])

/-- The border-color attribute of a form field: written by the handlers,
never read by them. -/
structure UrlFieldState where
  borderColor : String
deriving DecidableEq

/-- One run of the blur listener as a state transformer on the field's
border color: the listener overwrites `this.style.borderColor` on every
path and never reads it, so the pre-state is ignored. -/
def urlBlurRun (value : String) (st : UrlFieldState) : UrlFieldState × List NotifCall :=
  match st with
  | _ => (⟨(urlBlurHandler value).1⟩, (urlBlurHandler value).2)

/-- Two consecutive runs of the blur listener with the same value:
resulting state plus all notifications emitted across both runs. -/
def urlBlurTwice (value : String) (st : UrlFieldState) : UrlFieldState × List NotifCall :=
  let r1 := urlBlurRun value st
  let r2 := urlBlurRun value r1.1
  (r2.1, r1.2 ++ r2.2)

/-! ## The notifier -/

/-- The DOM node built by `showNotification`: its class, text and the
background color chosen from the `type` argument. -/
structure NotifNode where
  className : String
  textContent : String
  background : String
deriving DecidableEq

/-- `showNotification(message, type)`: builds the notification node.  The
background is green for `'success'`, red for `'error'`, and blue for
anything else. -/
def showNotification (message : String) (type : String) : NotifNode :=
  { className := "notification " ++ type
    textContent := message
    background :=
      if type = "success" then "#27ae60"
      else if type = "error" then "#e74c3c"
      else "#3498db" }

/-- The default for the omitted second argument: `type = 'info'`. -/
def defaultNotifType : String := "info"

/-- A call `showNotification(message)` with the type argument omitted. -/
def showNotificationOmitted (message : String) : NotifNode :=
  showNotification message defaultNotifType

/-- `document.body.appendChild(notification)`: the call appends exactly
one new node to the body. -/
def appendNotification (body : List NotifNode) (n : NotifNode) : List NotifNode :=
  body ++ [n]

/-- The display delay before the slide-out starts: `setTimeout(..., 3000)`. -/
def displayDelayMs : Nat := 3000

/-- The delay from slide-out start to removal: `setTimeout(..., 300)`. -/
def removalDelayMs : Nat := 300

/-- Lifecycle phase of one notification, indexed by milliseconds elapsed
since the `showNotification` call.  This embeds the nested timers: the
node is appended at time 0; at 3000ms the outer timer fires and switches
the animation to slide-out; at 3300ms the inner timer fires and removes
the node from the body.  There is no cancellation path. -/
inductive NotifPhase where
  | visible
  | dismissing
  | removed
deriving DecidableEq

/-- Phase of a notification `t` milliseconds after its creation. -/
def notifPhaseAt (t : Nat) : NotifPhase :=
  if t < displayDelayMs then .visible
  else if t < displayDelayMs + removalDelayMs then .dismissing
  else .removed

/-- Whether the node is still in the document body `t` milliseconds after
its creation. -/
def notifInBodyAt (t : Nat) : Bool :=
  notifPhaseAt t ≠ .removed

/-- The node's `style.animation` value `t` milliseconds after creation:
slide-in initially, slide-out once the outer timer has fired. -/
def notifAnimationAt (t : Nat) : String :=
  if t < displayDelayMs then "slideIn 0.3s ease" else "slideOut 0.3s ease"

/-! ## Listener registration at `DOMContentLoaded` -/

/-- An element handle returned by `document.getElementById`. -/
structure Element where
  id : String
deriving DecidableEq

/-- `el.addEventListener(...)` on the result of a `getElementById` lookup:
raises a `TypeError` if the lookup returned `null`. -/
def addListenerOn (el : Option Element) : Except String Unit :=
  match el with
  | some _ => .ok ()
  | none => .error "TypeError: null has no method addEventListener"

/-- Which listeners the `DOMContentLoaded` handler registered. -/
structure RegisteredListeners where
  blurOnVideoUrl : Bool
  inputOnPassword : Bool
deriving DecidableEq

/-- The `DOMContentLoaded` handler: looks up `video_url` and `password`
(each possibly absent), and guards each `addEventListener` call with an
existence check (`if (videoUrlInput) { ... }`, `if (passwordInput) { ... }`). -/
def registerValidators (videoUrl password : Option Element) :
    Except String RegisteredListeners := do
  let blurReg ←
    match videoUrl with
    | some el => do
        let _ ← addListenerOn (some el)
        pure true
    | none => pure false
  let inputReg ←
    match password with
    | some el => do
        let _ ← addListenerOn (some el)
        pure true
    | none => pure false
  pure ⟨blurReg, inputReg⟩

/-! ## Correctness of the derivative matcher -/

namespace Regex

theorem matches_fail_iff {s : List Char} : Matches .fail s ↔ False := by
  constructor
  · intro h
    cases h
  · exact False.elim

theorem matches_eps_iff {s : List Char} : Matches .eps s ↔ s = [] := by
  constructor
  · intro h
    cases h
    rfl
  · rintro rfl
    exact .eps

theorem matches_lit_iff {c : Char} {s : List Char} :
    Matches (.lit c) s ↔ s = [c] := by
  constructor
  · intro h
    cases h
    rfl
  · rintro rfl
    exact .lit c

theorem matches_dotAny_iff {s : List Char} :
    Matches .dotAny s ↔ ∃ c, s = [c] ∧ isDotChar c = true := by
  constructor
  · intro h
    cases h with
    | dotAny c hc => exact ⟨c, rfl, hc⟩
  · rintro ⟨c, rfl, hc⟩
    exact .dotAny c hc

theorem matches_cat_iff {a b : Regex} {s : List Char} :
    Matches (.cat a b) s ↔ ∃ u v, s = u ++ v ∧ Matches a u ∧ Matches b v := by
  constructor
  · intro h
    cases h with
    | cat ha hb => exact ⟨_, _, rfl, ha, hb⟩
  · rintro ⟨u, v, rfl, ha, hb⟩
    exact .cat ha hb

theorem matches_alt_iff {a b : Regex} {s : List Char} :
    Matches (.alt a b) s ↔ Matches a s ∨ Matches b s := by
  constructor
  · intro h
    cases h with
    | altL h => exact Or.inl h
    | altR h => exact Or.inr h
  · intro h
    cases h with
    | inl h => exact .altL h
    | inr h => exact .altR h

theorem nullable_iff {r : Regex} : r.nullable = true ↔ Matches r [] := by
  induction r with
  | fail => simp [nullable, matches_fail_iff]
  | eps => simp [nullable, matches_eps_iff]
  | lit c => simp [nullable, matches_lit_iff]
  | dotAny => simp [nullable, matches_dotAny_iff]
  | cat a b iha ihb =>
    simp only [nullable, Bool.and_eq_true, iha, ihb, matches_cat_iff]
    constructor
    · rintro ⟨ha, hb⟩
      exact ⟨[], [], rfl, ha, hb⟩
    · rintro ⟨u, v, huv, ha, hb⟩
      rcases List.append_eq_nil.mp huv.symm with ⟨rfl, rfl⟩
      exact ⟨ha, hb⟩
  | alt a b iha ihb =>
    simp [nullable, matches_alt_iff, iha, ihb]
  | star a ih =>
    simp only [nullable, true_iff]
    exact .starNil a

theorem matches_scat_iff {a b : Regex} {s : List Char} :
    Matches (a.scat b) s ↔ Matches (.cat a b) s := by
  have hfl : ∀ t : List Char, Matches (Regex.cat .fail b) t ↔ False := by
    intro t
    simp [matches_cat_iff, matches_fail_iff]
  have hfr : ∀ t : List Char, Matches (Regex.cat a .fail) t ↔ False := by
    intro t
    simp [matches_cat_iff, matches_fail_iff]
  have hel : ∀ t : List Char, Matches (Regex.cat .eps b) t ↔ Matches b t := by
    intro t
    simp only [matches_cat_iff, matches_eps_iff]
    constructor
    · rintro ⟨u, v, rfl, rfl, hb⟩
      exact hb
    · intro hb
      exact ⟨[], t, rfl, rfl, hb⟩
  have her : ∀ t : List Char, Matches (Regex.cat a .eps) t ↔ Matches a t := by
    intro t
    simp only [matches_cat_iff, matches_eps_iff]
    constructor
    · rintro ⟨u, v, rfl, ha, rfl⟩
      simpa using ha
    · intro ha
      exact ⟨t, [], by simp, ha, rfl⟩
  cases a <;> cases b <;>
    simp_all [scat, matches_fail_iff, matches_eps_iff, matches_cat_iff]

theorem matches_salt_iff {a b : Regex} {s : List Char} :
    Matches (a.salt b) s ↔ Matches (.alt a b) s := by
  cases a <;> cases b <;>
    simp_all [salt, matches_fail_iff, matches_alt_iff]

/-- Splitting `c :: s = u ++ v`: either the left part is empty, or it
starts with `c`. -/
theorem cons_eq_append_cases {c : Char} {s u v : List Char}
    (h : c :: s = u ++ v) :
    (u = [] ∧ v = c :: s) ∨ ∃ u', u = c :: u' ∧ s = u' ++ v := by
  cases u with
  | nil => exact Or.inl ⟨rfl, h.symm⟩
  | cons x u' =>
    rw [List.cons_append] at h
    injection h with h1 h2
    subst h1
    exact Or.inr ⟨u', rfl, h2⟩

/-- Inversion for star: a word in `a*` is empty or splits off a nonempty
first chunk in `a`. -/
theorem star_inv {r : Regex} {l : List Char} (h : Regex.Matches r l) :
    ∀ a : Regex, r = .star a →
      l = [] ∨ ∃ u v, l = u ++ v ∧ u ≠ [] ∧
        Regex.Matches a u ∧ Regex.Matches (.star a) v := by
  induction h with
  | eps => intro a ha; cases ha
  | lit c => intro a ha; cases ha
  | dotAny c hc => intro a ha; cases ha
  | cat ha hb iha ihb => intro a heq; cases heq
  | altL h ih => intro a heq; cases heq
  | altR h ih => intro a heq; cases heq
  | starNil a => intro a' heq; exact Or.inl rfl
  | starCons hs ht ihs iht =>
    rename_i a s t
    intro a' heq
    injection heq with heq'
    subst heq'
    cases s with
    | nil => simpa using iht a rfl
    | cons c s' =>
      exact Or.inr ⟨c :: s', t, rfl, by simp, hs, ht⟩

/-- The derivative computes the left quotient of the language. -/
theorem matches_deriv_iff {r : Regex} {c : Char} {s : List Char} :
    Regex.Matches (r.deriv c) s ↔ Regex.Matches r (c :: s) := by
  induction r generalizing s with
  | fail => simp [Regex.deriv, matches_fail_iff]
  | eps =>
    simp [Regex.deriv, matches_fail_iff, matches_eps_iff]
  | lit d =>
    simp only [Regex.deriv]
    split
    · next h =>
      subst h
      simp [matches_eps_iff, matches_lit_iff]
    · next h =>
      simp only [matches_fail_iff, matches_lit_iff, false_iff]
      intro hc
      injection hc with h1 h2
      exact h h1.symm
  | dotAny =>
    simp only [Regex.deriv]
    split
    · next h =>
      simp only [matches_eps_iff, matches_dotAny_iff]
      constructor
      · rintro rfl
        exact ⟨c, rfl, h⟩
      · rintro ⟨d, hd, hdot⟩
        injection hd with h1 h2
    · next h =>
      simp only [matches_fail_iff, matches_dotAny_iff, false_iff]
      rintro ⟨d, hd, hdot⟩
      injection hd with h1 h2
      exact h (h1 ▸ hdot)
  | cat a b iha ihb =>
    simp only [Regex.deriv]
    split
    · next hn =>
      rw [matches_salt_iff, matches_alt_iff, matches_scat_iff,
        matches_cat_iff, matches_cat_iff]
      constructor
      · rintro (⟨u, v, rfl, hu, hv⟩ | hb)
        · exact ⟨c :: u, v, rfl, iha.mp hu, hv⟩
        · exact ⟨[], c :: s, rfl, Regex.nullable_iff.mp hn, ihb.mp hb⟩
      · rintro ⟨u, v, huv, hu, hv⟩
        rcases cons_eq_append_cases huv with ⟨rfl, rfl⟩ | ⟨u', rfl, rfl⟩
        · exact Or.inr (ihb.mpr hv)
        · exact Or.inl ⟨u', v, rfl, iha.mpr hu, hv⟩
    · next hn =>
      rw [matches_scat_iff, matches_cat_iff, matches_cat_iff]
      constructor
      · rintro ⟨u, v, rfl, hu, hv⟩
        exact ⟨c :: u, v, rfl, iha.mp hu, hv⟩
      · rintro ⟨u, v, huv, hu, hv⟩
        rcases cons_eq_append_cases huv with ⟨rfl, rfl⟩ | ⟨u', rfl, rfl⟩
        · exact absurd (Regex.nullable_iff.mpr hu) (by simpa using hn)
        · exact ⟨u', v, rfl, iha.mpr hu, hv⟩
  | alt a b iha ihb =>
    simp [Regex.deriv, matches_salt_iff, matches_alt_iff, iha, ihb]
  | star a ih =>
    simp only [Regex.deriv]
    rw [matches_scat_iff, matches_cat_iff]
    constructor
    · rintro ⟨u, v, rfl, hu, hv⟩
      exact (List.cons_append c u v) ▸ Regex.Matches.starCons (ih.mp hu) hv
    · intro h
      rcases star_inv h a rfl with hnil | ⟨u, v, huv, hne, hu, hv⟩
      · cases hnil
      · cases u with
        | nil => exact absurd rfl hne
        | cons x u' =>
          rw [List.cons_append] at huv
          injection huv with h1 h2
          subst h1
          subst h2
          exact ⟨u', v, rfl, ih.mpr hu, hv⟩

/-- The executable matcher decides the language relation. -/
theorem matchList_iff {r : Regex} {s : List Char} :
    r.matchList s = true ↔ Regex.Matches r s := by
  induction s generalizing r with
  | nil => exact Regex.nullable_iff
  | cons c s ih =>
    have hstep : r.matchList (c :: s) = (r.deriv c).matchList s := rfl
    rw [hstep, ih]
    exact matches_deriv_iff

end Regex

/-! ## The language of the YouTube pattern -/

/-- `http://` as characters. -/
def httpL : List Char := ['h', 't', 't', 'p', ':', '/', '/']

/-- `https://` as characters. -/
def httpsL : List Char := ['h', 't', 't', 'p', 's', ':', '/', '/']

/-- `www.` as characters. -/
def wwwL : List Char := ['w', 'w', 'w', '.']

/-- `youtube.com` as characters. -/
def ytComL : List Char := ['y', 'o', 'u', 't', 'u', 'b', 'e', '.', 'c', 'o', 'm']

/-- `youtu.be` as characters. -/
def ytDotBeL : List Char := ['y', 'o', 'u', 't', 'u', '.', 'b', 'e']

/-- `youtube` — the host alternative `youtu\.?be` with the optional
literal dot omitted. -/
def ytBareL : List Char := ['y', 'o', 'u', 't', 'u', 'b', 'e']

/-- The strings the scheme group `(https?:\/\/)?` can consume. -/
def schemeForms : List (List Char) := [[], httpL, httpsL]

/-- The strings the group `(www\.)?` can consume. -/
def wwwForms : List (List Char) := [[], wwwL]

/-- The strings the host group `(youtube\.com|youtu\.?be)` can consume. -/
def hostForms : List (List Char) := [ytComL, ytDotBeL, ytBareL]

theorem matches_strR_iff {w s : List Char} :
    Regex.Matches (strR w) s ↔ s = w := by
  induction w generalizing s with
  | nil => simp [strR, Regex.matches_eps_iff]
  | cons c w ih =>
    simp only [strR, Regex.matches_cat_iff, Regex.matches_lit_iff, ih]
    constructor
    · rintro ⟨u, v, rfl, rfl, rfl⟩
      rfl
    · rintro rfl
      exact ⟨[c], w, rfl, rfl, rfl⟩

theorem matches_ropt_iff {r : Regex} {s : List Char} :
    Regex.Matches (ropt r) s ↔ s = [] ∨ Regex.Matches r s := by
  rw [ropt, Regex.matches_alt_iff, Regex.matches_eps_iff, or_comm]

theorem matches_starDot_iff {s : List Char} :
    Regex.Matches (.star .dotAny) s ↔ ∀ c ∈ s, isDotChar c = true := by
  constructor
  · intro h
    induction s with
    | nil => simp
    | cons c s ih =>
      rcases Regex.star_inv h _ rfl with hnil | ⟨u, v, huv, hne, hu, hv⟩
      · cases hnil
      · rcases Regex.matches_dotAny_iff.mp hu with ⟨d, rfl, hd⟩
        injection huv with h1 h2
        subst h1
        subst h2
        intro e he
        rcases List.mem_cons.mp he with rfl | hev
        · exact hd
        · exact ih hv e hev
  · intro h
    induction s with
    | nil => exact .starNil _
    | cons c s ih =>
      have hc : Regex.Matches .dotAny [c] := .dotAny c (h c (by simp))
      have hs : Regex.Matches (.star .dotAny) s :=
        ih fun e he => h e (by simp [he])
      exact Regex.Matches.starCons hc hs

theorem matches_dotPlus_iff {s : List Char} :
    Regex.Matches dotPlus s ↔ s ≠ [] ∧ ∀ c ∈ s, isDotChar c = true := by
  simp only [dotPlus, Regex.matches_cat_iff, Regex.matches_dotAny_iff,
    matches_starDot_iff]
  constructor
  · rintro ⟨u, v, rfl, ⟨c, rfl, hc⟩, hv⟩
    refine ⟨by simp, ?_⟩
    intro d hd
    rcases List.mem_append.mp hd with hdu | hdv
    · rcases List.mem_singleton.mp hdu with rfl
      exact hc
    · exact hv d hdv
  · rintro ⟨hne, hall⟩
    cases s with
    | nil => exact absurd rfl hne
    | cons c s =>
      exact ⟨[c], s, rfl, ⟨c, rfl, hall c (by simp)⟩,
        fun d hd => hall d (by simp [hd])⟩

theorem matches_schemeR_iff {s : List Char} :
    Regex.Matches schemeR s ↔ s ∈ schemeForms := by
  simp only [schemeR, matches_ropt_iff, Regex.matches_cat_iff,
    Regex.matches_lit_iff, matches_strR_iff, schemeForms, httpL, httpsL,
    List.mem_cons, List.mem_singleton, List.not_mem_nil]
  constructor
  · rintro (rfl | ⟨u, v, rfl, rfl, p, q, rfl, hp | rfl, rfl⟩)
    · exact Or.inl rfl
    · subst hp
      exact Or.inr (Or.inl rfl)
    · exact Or.inr (Or.inr (Or.inl rfl))
  · rintro (rfl | rfl | (rfl | h))
    · exact Or.inl rfl
    · exact Or.inr ⟨['h', 't', 't', 'p'], [':', '/', '/'], rfl, rfl,
        [], [':', '/', '/'], rfl, Or.inl rfl, rfl⟩
    · exact Or.inr ⟨['h', 't', 't', 'p'], ['s', ':', '/', '/'], rfl, rfl,
        ['s'], [':', '/', '/'], rfl, Or.inr rfl, rfl⟩
    · exact absurd h (by simp)

theorem matches_wwwR_iff {s : List Char} :
    Regex.Matches wwwR s ↔ s ∈ wwwForms := by
  simp only [wwwR, matches_ropt_iff, matches_strR_iff, wwwForms, wwwL,
    List.mem_cons, List.mem_singleton, List.not_mem_nil]
  tauto

theorem matches_hostR_iff {s : List Char} :
    Regex.Matches hostR s ↔ s ∈ hostForms := by
  simp only [hostR, Regex.matches_alt_iff, Regex.matches_cat_iff,
    matches_strR_iff, matches_ropt_iff, Regex.matches_lit_iff, hostForms,
    ytComL, ytDotBeL, ytBareL, List.mem_cons, List.mem_singleton,
    List.not_mem_nil]
  constructor
  · rintro (rfl | ⟨u, v, rfl, rfl, p, q, rfl, hp | rfl, rfl⟩)
    · exact Or.inl rfl
    · subst hp
      exact Or.inr (Or.inr (Or.inl rfl))
    · exact Or.inr (Or.inl rfl)
  · rintro (rfl | rfl | (rfl | h))
    · exact Or.inl rfl
    · exact Or.inr ⟨['y', 'o', 'u', 't', 'u'], ['.', 'b', 'e'], rfl, rfl,
        ['.'], ['b', 'e'], rfl, Or.inr rfl, rfl⟩
    · exact Or.inr ⟨['y', 'o', 'u', 't', 'u'], ['b', 'e'], rfl, rfl,
        [], ['b', 'e'], rfl, Or.inl rfl, rfl⟩
    · exact absurd h (by simp)

/-- Full language of the pattern: an optional scheme, an optional `www.`,
one of the three host forms, a `/`, and a nonempty run of characters that
`.` can match. -/
theorem matches_youtubePattern_iff {s : List Char} :
    Regex.Matches youtubePattern s ↔
      ∃ p w h rest, p ∈ schemeForms ∧ w ∈ wwwForms ∧ h ∈ hostForms ∧
        rest ≠ [] ∧ (∀ c ∈ rest, isDotChar c = true) ∧
        s = p ++ (w ++ (h ++ ('/' :: rest))) := by
  simp only [youtubePattern, Regex.matches_cat_iff, matches_schemeR_iff,
    matches_wwwR_iff, matches_hostR_iff, Regex.matches_lit_iff,
    matches_dotPlus_iff]
  constructor
  · rintro ⟨p, v1, rfl, hp, w, v2, rfl, hw, h, v3, rfl, hh, sl, rest, rfl,
      rfl, hne, hall⟩
    exact ⟨p, w, h, rest, hp, hw, hh, hne, hall, rfl⟩
  · rintro ⟨p, w, h, rest, hp, hw, hh, hne, hall, rfl⟩
    exact ⟨p, _, rfl, hp, w, _, rfl, hw, h, _, rfl, hh, ['/'], rest, rfl,
      rfl, hne, hall⟩

/-- The same language description for the executable `test`. -/
theorem youtubeTest_iff {s : String} :
    youtubeTest s = true ↔
      ∃ p w h rest, p ∈ schemeForms ∧ w ∈ wwwForms ∧ h ∈ hostForms ∧
        rest ≠ [] ∧ (∀ c ∈ rest, isDotChar c = true) ∧
        s.data = p ++ (w ++ (h ++ ('/' :: rest))) := by
  rw [youtubeTest, Regex.matchList_iff, matches_youtubePattern_iff]

/-! ## Claims -/

/-- Claim C1: for every string S, the URL blur handler marks the field
valid (border `#27ae60`) iff S is empty or S matches the YouTube pattern;
otherwise it marks it invalid (border `#e74c3c`) and emits exactly one
error-kind notification. -/
theorem urlBlur_valid_iff (S : String) :
    ((urlBlurHandler S).1 = "#27ae60" ↔ (S = "" ∨ youtubeTest S = true)) ∧
    ((urlBlurHandler S).1 = "#e74c3c" ↔ ¬(S = "" ∨ youtubeTest S = true)) ∧
    ((urlBlurHandler S).2.filter (fun n => n.type = "error")).length =
      (if S = "" ∨ youtubeTest S = true then 0 else 1) := by
  by_cases h : S = "" ∨ youtubeTest S = true
  · have hcond : ¬(S ≠ "" ∧ youtubeTest S = false) := by
      rcases h with rfl | ht
      · rintro ⟨hne, _⟩
        exact hne rfl
      · rintro ⟨_, hf⟩
        rw [ht] at hf
        cases hf
    rw [urlBlurHandler, if_neg hcond]
    refine ⟨by simp [h], ?_, by simp [h]⟩
    constructor
    · intro hc
      exact absurd hc (by decide)
    · intro hc
      exact absurd h hc
  · have hcond : S ≠ "" ∧ youtubeTest S = false := by
      push_neg at h
      exact ⟨h.1, by simpa using h.2⟩
    rw [urlBlurHandler, if_pos hcond]
    refine ⟨?_, by simp [h], by simp [h]⟩
    constructor
    · intro hc
      exact absurd hc (by decide)
    · intro hv
      exact absurd hv h

/-- Claim C2: the password input handler colors by length alone — red
below 6, orange from 6 to 9, green from 10 — and emits no notification. -/
theorem passwordColor_spec (P : String) :
    ((passwordInputHandler P).1 = "#e74c3c" ↔ P.length < 6) ∧
    ((passwordInputHandler P).1 = "#f39c12" ↔ (6 ≤ P.length ∧ P.length < 10)) ∧
    ((passwordInputHandler P).1 = "#27ae60" ↔ 10 ≤ P.length) ∧
    (∀ Q : String, P.length = Q.length →
      passwordInputHandler P = passwordInputHandler Q) ∧
    (passwordInputHandler P).2 = [] := by
  have hfun : ∀ Q : String, P.length = Q.length →
      passwordInputHandler P = passwordInputHandler Q := by
    intro Q hQ
    rw [passwordInputHandler, passwordInputHandler, hQ]
  refine ⟨?_, ?_, ?_, hfun, rfl⟩ <;>
    · rw [passwordInputHandler]
      split_ifs with h1 h2 <;> simp_all <;> omega

/-- Witness for C2 at concrete inputs of equal length 6. -/
theorem passwordColor_spec_witness :
    passwordInputHandler "abcdef" = passwordInputHandler "uvwxyz" ∧
    (passwordInputHandler "abcdef").1 = "#f39c12" :=
  ⟨(passwordColor_spec "abcdef").2.2.2.1 "uvwxyz" (by decide),
   (passwordColor_spec "abcdef").2.1.mpr (by decide)⟩

/-- Counterexample to claim C3: the pattern does NOT accept
`youtu` + `X` + `be` — the dot before `be` is escaped, so for the input
`https://youtuXbe/v` the test fails and the field is marked invalid with
an error notification, contradicting the claimed match. -/
theorem youtuXbe_rejected :
    youtubeTest "https://youtuXbe/v" = false ∧
    urlBlurHandler "https://youtuXbe/v" =
      ("#e74c3c", [⟨youtubeUrlMessage, "error"⟩]) := by
  constructor
  · decide
  · decide

/-- Claim C3 (amended): the character before `be` is the escaped literal
`\.` made optional, not a wildcard: for every character `c` other than
`.`, the host group does not accept `youtu` + `c` + `be`. -/
theorem host_dot_literal (c : Char) (hc : c ≠ '.') :
    ¬ Regex.Matches hostR ('y' :: 'o' :: 'u' :: 't' :: 'u' :: c :: ['b', 'e']) := by
  rw [matches_hostR_iff]
  simp [hostForms, ytComL, ytDotBeL, ytBareL, hc]

/-- Witness for the amended C3 at `c = 'X'`. -/
theorem host_dot_literal_witness :
    ¬ Regex.Matches hostR ('y' :: 'o' :: 'u' :: 't' :: 'u' :: 'X' :: ['b', 'e']) :=
  host_dot_literal 'X' (by decide)

/-- Claim C4: `showNotification` picks the background from the type:
green for `'success'`, red for `'error'`, blue otherwise; the omitted
type argument defaults to `'info'`. -/
theorem showNotification_background (m t : String) :
    ((showNotification m t).background = "#27ae60" ↔ t = "success") ∧
    ((showNotification m t).background = "#e74c3c" ↔ t = "error") ∧
    (t ≠ "success" → t ≠ "error" →
      (showNotification m t).background = "#3498db") ∧
    defaultNotifType = "info" ∧
    showNotificationOmitted m = showNotification m "info" := by
  refine ⟨?_, ?_, ?_, rfl, rfl⟩
  · by_cases hs : t = "success"
    · simp [showNotification, hs]
    · by_cases he : t = "error" <;> simp [showNotification, hs, he]
  · by_cases hs : t = "success"
    · simp [showNotification, hs]
    · by_cases he : t = "error" <;> simp [showNotification, hs, he]
  · intro hs he
    simp [showNotification, hs, he]

/-- Witness for C4 at concrete types. -/
theorem showNotification_background_witness :
    (showNotification "x" "info").background = "#3498db" ∧
    (showNotification "x" "success").background = "#27ae60" :=
  ⟨(showNotification_background "x" "info").2.2.1 (by decide) (by decide),
   ((showNotification_background "x" "success").1).mpr rfl⟩

/-- Claim C5: each `showNotification` call appends exactly one node to the
body; the node is present at 0ms and at 2000ms, is in its slide-out phase
exactly from 3000ms to 3300ms, and is gone exactly from 3300ms on — the
lifecycle always completes, with no cancellation path. -/
theorem notification_lifecycle (body : List NotifNode) (n : NotifNode) :
    (appendNotification body n).length = body.length + 1 ∧
    appendNotification body n = body ++ [n] ∧
    notifInBodyAt 0 = true ∧
    notifInBodyAt 2000 = true ∧
    (∀ t : Nat, notifPhaseAt t = .dismissing ↔ (3000 ≤ t ∧ t < 3300)) ∧
    (∀ t : Nat, notifInBodyAt t = false ↔ 3300 ≤ t) ∧
    (∀ t : Nat, notifAnimationAt t = "slideOut 0.3s ease" ↔ 3000 ≤ t) := by
  refine ⟨by simp [appendNotification], rfl, by decide, by decide, ?_, ?_, ?_⟩
  · intro t
    rw [notifPhaseAt]
    split_ifs with h1 h2 <;>
      simp_all [displayDelayMs, removalDelayMs]
  · intro t
    rw [notifInBodyAt, notifPhaseAt]
    split_ifs with h1 h2 <;> simp_all [displayDelayMs, removalDelayMs]
    omega
  · intro t
    rw [notifAnimationAt]
    split_ifs with h1 <;>
      simp_all [displayDelayMs]

/-- Claim C6: the blur handler is idempotent on the border color — the
second run with the same value yields the same color, independently of
any prior field state — while notifications are re-emitted on every run
(two invalid runs queue two notifications). -/
theorem urlBlur_idempotent (v : String) (st : UrlFieldState) :
    (urlBlurTwice v st).1.borderColor = (urlBlurRun v st).1.borderColor ∧
    (∀ st' : UrlFieldState, (urlBlurRun v st).1 = (urlBlurRun v st').1) ∧
    (urlBlurTwice v st).2 = (urlBlurHandler v).2 ++ (urlBlurHandler v).2 ∧
    ((urlBlurHandler v).1 = "#e74c3c" ↔ (urlBlurTwice v st).2.length = 2) ∧
    ((urlBlurHandler v).1 = "#27ae60" ↔ (urlBlurTwice v st).2.length = 0) := by
  refine ⟨rfl, fun st' => rfl, rfl, ?_, ?_⟩ <;>
    · rw [urlBlurHandler]
      split_ifs with h <;>
        simp [urlBlurTwice, urlBlurRun, urlBlurHandler, h]

/-- Claim C7: the three concrete scenarios — a well-formed `youtu.be`
link is valid with no notification, an `ftp://` URL is invalid with
exactly the literal Russian error message, and the empty string is
valid with no notification. -/
theorem urlBlur_concrete_scenario :
    urlBlurHandler "https://youtu.be/abc123" = ("#27ae60", []) ∧
    urlBlurHandler "ftp://example.com" =
      ("#e74c3c",
       [⟨"Пожалуйста, введите корректную ссылку на YouTube видео", "error"⟩]) ∧
    urlBlurHandler "" = ("#27ae60", []) := by
  refine ⟨by decide, by decide, by decide⟩

/-- Claim C8: registration at `DOMContentLoaded` never raises; it
registers the blur listener iff `video_url` exists and the input listener
iff `password` exists, each independently of the other. -/
theorem registerValidators_tolerates_absent (v p : Option Element) :
    registerValidators v p = .ok ⟨v.isSome, p.isSome⟩ := by
  cases v <;> cases p <;> rfl

/-- Claim C9: the pattern requires at least one character after the `/`:
every accepted prefix+host combination followed by a bare `/` is rejected
and marked invalid with one error notification. -/
theorem slash_only_inputs_invalid (p w h : List Char)
    (hp : p ∈ schemeForms) (hw : w ∈ wwwForms) (hh : h ∈ hostForms) :
    urlBlurHandler (String.mk (p ++ (w ++ (h ++ ['/'])))) =
      ("#e74c3c", [⟨youtubeUrlMessage, "error"⟩]) := by
  fin_cases hp <;> fin_cases hw <;> fin_cases hh <;> decide

/-- Witness for C9 at `https://youtube.com/`. -/
theorem slash_only_inputs_invalid_witness :
    urlBlurHandler (String.mk (httpsL ++ ([] ++ (ytComL ++ ['/'])))) =
      ("#e74c3c", [⟨youtubeUrlMessage, "error"⟩]) :=
  slash_only_inputs_invalid httpsL [] ytComL (by decide) (by decide) (by decide)

/-- Counterexample to claim C10: `youtube/` followed by at least one
character is not always accepted — a line terminator after the slash is
not matched by `.`, so `youtube/` + LF is marked invalid with an error
notification, where the claim requires valid and no notification. -/
theorem newline_rest_rejected :
    urlBlurHandler "youtube/\n" = ("#e74c3c", [⟨youtubeUrlMessage, "error"⟩]) := by
  decide

/-- Claim C10 (amended): the bare host `youtube` (optional dot omitted)
is accepted: any optional scheme, optional `www.`, then `youtube/`
followed by at least one character, none of which is a line terminator,
is marked valid with no notification. -/
theorem bare_youtube_host_accepted (p w rest : List Char)
    (hp : p ∈ schemeForms) (hw : w ∈ wwwForms)
    (hne : rest ≠ []) (hdot : ∀ c ∈ rest, isDotChar c = true) :
    urlBlurHandler (String.mk (p ++ (w ++ (ytBareL ++ ('/' :: rest))))) =
      ("#27ae60", []) := by
  have htest : youtubeTest (String.mk (p ++ (w ++ (ytBareL ++ ('/' :: rest))))) = true :=
    youtubeTest_iff.mpr ⟨p, w, ytBareL, rest, hp, hw, by decide, hne, hdot, rfl⟩
  rw [urlBlurHandler]
  rw [if_neg]
  rintro ⟨hne', hf⟩
  rw [htest] at hf
  cases hf

/-- Witness for the amended C10 at `youtube/x`. -/
theorem bare_youtube_host_accepted_witness :
    urlBlurHandler "youtube/x" = ("#27ae60", []) :=
  bare_youtube_host_accepted [] [] ['x'] (by decide) (by decide) (by decide)
    (by decide)

end MainJs
